import Mathlib

/-!
Verification of the session-lifecycle and legacy-state-migration core of the
repository (`src/infra/state-migrations.ts` and the `initSessionState` module).

JavaScript strings are modelled as `List Char`; the JS string methods used by
the source (`trim`, `toLowerCase`, `startsWith`, `includes`, `slice`,
`trimStart`) are defined below, mirroring their JS semantics on the ASCII
inputs the code manipulates.  External collaborators (agent-id normalization,
session-key resolution, mention stripping, the transcript store) are taken as
parameters, never modelled concretely; everything under `src/` is translated
directly.
-/

set_option maxHeartbeats 1000000


/-- JavaScript string, modelled as a list of characters. -/
abbrev JStr := List Char


/-- JS whitespace characters relevant to `String.prototype.trim` (ASCII subset). -/
def jsWs (c : Char) : Bool :=
  c = ' ' || c = '\t' || c = '\n' || c = '\r' || c = '\x0b' || c = '\x0c'


/-- JS `trimStart`: drop leading whitespace. -/
def trimStart : JStr → JStr
  | [] => []
  | c :: rest => if jsWs c then trimStart rest else c :: rest


/-- JS `trimEnd`: drop trailing whitespace. -/
def trimEnd (s : JStr) : JStr := (trimStart s.reverse).reverse


/-- JS `trim`. -/
def jsTrim (s : JStr) : JStr := trimEnd (trimStart s)


/-- JS `toLowerCase` (ASCII). -/
def lower (s : JStr) : JStr := s.map Char.toLower


/-- JS `s.startsWith(p)`, written `startsWith p s`. -/
def startsWith : JStr → JStr → Bool
  | [], _ => true
  | _ :: _, [] => false
  | p :: ps, c :: cs => p = c && startsWith ps cs


/-- JS `s.includes(sub)`, written `containsSub sub s`. -/
def containsSub (sub : JStr) : JStr → Bool
  | [] => startsWith sub []
  | c :: rest => startsWith sub (c :: rest) || containsSub sub rest


/-! ## Key Normalizer (`src/infra/state-migrations.ts` lines 59-103)

`normalizeAgentId` lives in `../routing/session-key.js` (external collaborator);
it is taken as the parameter `na` throughout. -/

/-- `isSurfaceGroupKey` (lines 59-61). -/
def isSurfaceGroupKey (key : JStr) : Bool :=
  containsSub ":group:".toList key || containsSub ":channel:".toList key


/-- `isLegacyGroupKey` (lines 63-73). -/
def isLegacyGroupKey (key : JStr) : Bool :=
  let trimmed := jsTrim key
  if trimmed.isEmpty then false
  else if startsWith "group:".toList trimmed then true
  else if containsSub "@g.us".toList (lower trimmed) = false then false
  else if containsSub [':'] trimmed = false then true
  else if startsWith "whatsapp:".toList (lower trimmed)
          && !containsSub ":group:".toList trimmed then true
  else false


/-- The `remainder.replace(/^group:/i, "")` step of rule 5 (line 94). -/
def stripGroupPrefixCI (r : JStr) : JStr :=
  if startsWith "group:".toList (lower r) then r.drop 6 else r


/-- The `cleaned` value of rule 5 (lines 93-94): trim the remainder after
`whatsapp:`, strip a case-insensitive `group:` sub-prefix, trim again. -/
def cleanedOf (raw : JStr) : JStr :=
  jsTrim (stripGroupPrefixCI (jsTrim (raw.drop 9)))


/-- `normalizeSessionKeyForAgent` (lines 75-103), paired with the rule number
(2-6) that rewrote the key, or `none` when the key is returned as the trimmed
input (empty input, an `agent:`-prefixed key, a `group:` key with a blank id,
or no rule matching).  The TS `if`-chain is mirrored in order; rule 5's inner
guard failing falls through to the surface-group check exactly as in the
source. -/
def normalizeTagged (na : JStr → JStr) (key agentId : JStr) : JStr × Option Nat :=
  let raw := jsTrim key
  if raw.isEmpty then (raw, none)
  else if startsWith "agent:".toList raw then (raw, none)
  else if startsWith "subagent:".toList (lower raw) then
    ("agent:".toList ++ na agentId ++ ":subagent:".toList ++ raw.drop 9, some 2)
  else if startsWith "group:".toList raw then
    let id := jsTrim (raw.drop 6)
    if id.isEmpty then (raw, none)
    else
      let channel := if containsSub "@g.us".toList (lower id)
        then "whatsapp".toList else "unknown".toList
      ("agent:".toList ++ na agentId ++ [':'] ++ channel ++ ":group:".toList ++ id, some 3)
  else if !containsSub [':'] raw && containsSub "@g.us".toList (lower raw) then
    ("agent:".toList ++ na agentId ++ ":whatsapp:group:".toList ++ raw, some 4)
  else if startsWith "whatsapp:".toList (lower raw)
          && containsSub "@g.us".toList (lower raw)
          && !(cleanedOf raw).isEmpty && !isSurfaceGroupKey raw then
    ("agent:".toList ++ na agentId ++ ":whatsapp:group:".toList ++ cleanedOf raw, some 5)
  else if isSurfaceGroupKey raw then
    ("agent:".toList ++ na agentId ++ [':'] ++ raw, some 6)
  else (raw, none)


/-- `normalizeSessionKeyForAgent` (lines 75-103). -/
def normalizeSessionKeyForAgent (na : JStr → JStr) (key agentId : JStr) : JStr :=
  (normalizeTagged na key agentId).1


/-! ### Idempotence machinery: every rewritten key is `agent:`-prefixed and
fixed by `jsTrim`, so a second normalization pass returns it unchanged. -/

/-- The final character of `s` (if any) is not whitespace. -/
def lastNotWs (s : JStr) : Prop := ∀ c, s.reverse.head? = some c → jsWs c = false


/-- Either no rewrite happened and the result is the trimmed input with no
tag, or some rule 2-6 fired and the result is `agent:` followed by a nonempty
tail with no trailing whitespace. -/
abbrev NormShape (k : JStr) (t : JStr × Option Nat) : Prop :=
  t = (jsTrim k, none) ∨
    ∃ X r, (lastNotWs X ∧ X ≠ []) ∧ t = ("agent:".toList ++ X, some r)


/-! ## Sessions migration (`migrateLegacySessions`, lines 232-333, and its
helpers `pickLatestLegacyDirectEntry` lines 105-125 and
`normalizeSessionEntry` lines 127-135).

Session stores parsed from JSON5 are loosely typed (`SessionEntryLike`): a
JS value is modelled by `JsVal` / `JsNum` (strings, numbers including
`NaN`/`±Infinity`, `null`/`undefined`, other objects).  A store is a list of
key/entry pairs in JS object insertion order; the model restricts store
values to object entries (the guards for non-object values in the source are
then vacuous).  The `payload` field stands for all further fields an entry
carries, preserved by spreads.  `buildAgentMainSessionKey` is external; its
result is taken as the `mainKey` parameter. -/

/-- A JS number: finite value, `NaN`, or a signed infinity. -/
inductive JsNum where
  | fin (q : ℚ)
  | nan
  | inf
  | ninf
deriving DecidableEq


/-- A loosely-typed JS value as found in a parsed legacy session entry. -/
inductive JsVal where
  | vstr (s : JStr)
  | vnum (n : JsNum)
  | vnull
  | vobj
deriving DecidableEq


/-- JS truthiness of a `JsVal`. -/
def jsTruthy : JsVal → Bool
  | .vstr s => !s.isEmpty
  | .vnum (.fin q) => decide (q ≠ 0)
  | .vnum .nan => false
  | .vnum .inf => true
  | .vnum .ninf => true
  | .vnull => false
  | .vobj => true


/-- JS strict `>` on numbers (`NaN` incomparable). -/
def jsGt : JsNum → JsNum → Bool
  | .nan, _ => false
  | _, .nan => false
  | .inf, .inf => false
  | .inf, _ => true
  | _, .inf => false
  | .fin a, .fin b => decide (b < a)
  | .fin _, .ninf => true
  | .ninf, _ => false


/-- `SessionEntryLike`: one loosely-typed store entry.  `payload` models the
entry's remaining fields, carried along by object spreads. -/
structure EL where
  sessionId : JsVal
  updatedAt : JsVal
  payload : Nat
deriving DecidableEq


/-- A normalized `SessionEntry` as written back by the migration
(`normalizeSessionEntry` guarantees a string id and a finite timestamp). -/
structure NE where
  sessionId : JStr
  updatedAt : ℚ
  payload : Nat
deriving DecidableEq


/-- A parsed session store, in JS object insertion order. -/
abbrev StoreL := List (JStr × EL)


/-- JS object property lookup on the association-list model. -/
def assocLookup {α : Type} : List (JStr × α) → JStr → Option α
  | [], _ => none
  | (k', v) :: rest, k => if k' = k then some v else assocLookup rest k


/-- `normalizeSessionEntry` (lines 127-135): drop the entry unless its
`sessionId` is a truthy string; replace a non-finite-number `updatedAt` with
the current time. -/
def normalizeSessionEntryM (now : ℚ) (e : EL) : Option NE :=
  match e.sessionId with
  | .vstr s =>
    if s.isEmpty then none
    else some { sessionId := s,
                updatedAt := match e.updatedAt with
                  | .vnum (.fin q) => q
                  | _ => now,
                payload := e.payload }
  | _ => none


/-- The legacy-key normalization loop of `migrateLegacySessions`
(lines 251-256): normalize each key, skip blank results, first entry wins on
normalized-key collision. -/
def normLegacyAux (na : JStr → JStr) (aid : JStr) : StoreL → StoreL → StoreL
  | acc, [] => acc
  | acc, (k, e) :: rest =>
    let nextKey := normalizeSessionKeyForAgent na k aid
    if nextKey.isEmpty then normLegacyAux na aid acc rest
    else if (assocLookup acc nextKey).isSome then normLegacyAux na aid acc rest
    else normLegacyAux na aid (acc ++ [(nextKey, e)]) rest


/-- `normalizedLegacy` (lines 251-256). -/
def normalizedLegacyOf (na : JStr → JStr) (aid : JStr) (legacy : StoreL) : StoreL :=
  normLegacyAux na aid [] legacy


/-- JS object spread `{...a, ...b}` on the association-list model: `a`'s keys
in order with `b`'s values winning on collision, then `b`'s new keys. -/
def spreadMerge {α : Type} (a b : List (JStr × α)) : List (JStr × α) :=
  a.map (fun kv => (kv.1, (assocLookup b kv.1).getD kv.2)) ++
    b.filter (fun kv => (assocLookup a kv.1).isNone)


/-- The merged store `{...normalizedLegacy, ...targetStore}` (lines 258-261). -/
def mergedStoreOf (na : JStr → JStr) (aid : JStr) (legacy target : StoreL) : StoreL :=
  spreadMerge (normalizedLegacyOf na aid legacy) target


/-- The per-key guards of `pickLatestLegacyDirectEntry` (lines 110-117): skip
blank keys, `global`, `agent:`/`subagent:` prefixes, and legacy or surface
group keys. -/
def legacyDirectEligible (key : JStr) : Bool :=
  let normalized := jsTrim key
  if normalized.isEmpty then false
  else if normalized = "global".toList then false
  else if startsWith "agent:".toList normalized then false
  else if startsWith "subagent:".toList (lower normalized) then false
  else if isLegacyGroupKey normalized || isSurfaceGroupKey normalized then false
  else true


/-- `typeof entry.updatedAt === "number" ? entry.updatedAt : 0` (line 118). -/
def updNum (e : EL) : JsNum :=
  match e.updatedAt with
  | .vnum n => n
  | _ => .fin 0


/-- The scan loop of `pickLatestLegacyDirectEntry` (lines 108-123). -/
def pickAux : StoreL → Option EL × JsNum → Option EL × JsNum
  | [], st => st
  | (k, e) :: rest, (best, bu) =>
    if legacyDirectEligible k then
      if jsGt (updNum e) bu then pickAux rest (some e, updNum e)
      else pickAux rest (best, bu)
    else pickAux rest (best, bu)


/-- `pickLatestLegacyDirectEntry` (lines 105-125). -/
def pickLatestLegacyDirectEntry (store : StoreL) : Option EL :=
  (pickAux store (none, .fin (-1))).1


/-- The merged store after main-key adoption (lines 263-273): if the canonical
main key is absent, adopt the latest legacy direct entry provided its
`sessionId` is truthy. -/
def mergedWithMain (na : JStr → JStr) (aid mainKey : JStr)
    (legacy target : StoreL) : StoreL :=
  let merged := mergedStoreOf na aid legacy target
  if (assocLookup merged mainKey).isNone then
    match pickLatestLegacyDirectEntry legacy with
    | some latest =>
      if jsTruthy latest.sessionId then merged ++ [(mainKey, latest)] else merged
    | none => merged
  else merged


/-- The store written by `saveSessionStore` (lines 285-291): every merged
entry surviving `normalizeSessionEntry`. -/
def writtenStore (na : JStr → JStr) (aid mainKey : JStr) (now : ℚ)
    (legacy target : StoreL) : List (JStr × NE) :=
  (mergedWithMain na aid mainKey legacy target).filterMap
    (fun kv => (normalizeSessionEntryM now kv.2).map (fun ne => (kv.1, ne)))


/-- Concrete entries for the C1 witness. -/
def c1LegacyEntry : EL :=
  { sessionId := .vstr "s1".toList, updatedAt := .vnum (.fin 10), payload := 0 }


/-- Concrete target entry for the C1 witness. -/
def c1TargetEntry : EL :=
  { sessionId := .vstr "s2".toList, updatedAt := .vnum (.fin 20), payload := 1 }


/-- Legacy entry under the key `global` for the C5 counterexample. -/
def c5GlobalEntry : EL :=
  { sessionId := .vstr "g".toList, updatedAt := .vnum (.fin 100), payload := 0 }


/-- Legacy entry under the key `alice` for the C5 counterexample. -/
def c5AliceEntry : EL :=
  { sessionId := .vstr "a".toList, updatedAt := .vnum (.fin 50), payload := 1 }


/-- Legacy store for the C5 counterexample. -/
def c5Legacy : StoreL :=
  [("global".toList, c5GlobalEntry), ("alice".toList, c5AliceEntry)]


/-- Merged entry with a non-string `sessionId` for the C10 witness. -/
def c10BadEntry : EL :=
  { sessionId := .vnum (.fin 7), updatedAt := .vnum (.fin 10), payload := 0 }


/-- Merged entry with a non-finite `updatedAt` for the C10 witness. -/
def c10NanEntry : EL :=
  { sessionId := .vstr "sid".toList, updatedAt := .vnum .nan, payload := 1 }


/-! ## Session lifecycle (`initSessionState` and `forkSessionFromParent` from
the auto-reply session-state module).

External collaborators are inputs: `stripStructuralPrefixes` / `stripMentions`
(mention stripping, pre-applied to the message context), `normalizeChatType`,
`resolveCommandAuthorization` (the `resetAuthorized` flag),
`resolveSessionKey` (the resolved `sessionKey`), the loaded session store,
`crypto.randomUUID` (the `newUuid` / `forkUuid` inputs), `SessionManager`
(the `ForkManagerM` oracle), `resolveSessionFilePath` and
`resolveSessionTranscriptPath`.  The model carries the entry fields the
lifecycle reads or writes; group-metadata refresh and delivery-field
bookkeeping (which never affect `sessionId` / `isNewSession`) are omitted. -/

/-- The typed `SessionEntry` fields used by the lifecycle state machine. -/
structure SessionEntryS where
  sessionId : JStr
  updatedAt : ℚ
  systemSent : Option Bool
  abortedLastRun : Option Bool
  thinkingLevel : Option JStr
  verboseLevel : Option JStr
  reasoningLevel : Option JStr
  modelOverride : Option JStr
  providerOverride : Option JStr
  sessionFile : Option JStr
  compactionCount : Option ℚ
deriving DecidableEq


/-- Oracle for the external `SessionManager` opened on the parent transcript:
`branchResult = none` models `createBranchedSession` throwing, `some r` its
return value (`r = none` for `null`); `writeOk = false` models
`fs.writeFileSync` throwing. -/
structure ForkManagerM where
  leafId : Option JStr
  branchResult : Option (Option JStr)
  sessionFile : Option JStr
  sessionId : Option JStr
  sessionDir : JStr
  writeOk : Bool
deriving DecidableEq


/-- JS truthiness of a nullable string. -/
def jsOptStrTruthy : Option JStr → Bool
  | some s => !s.isEmpty
  | none => false


/-- The synthesized-branch fallback of `forkSessionFromParent`: new id, new
transcript file named from the timestamp and id, header write may throw. -/
def forkSynth (m : ForkManagerM) (uuid ts : JStr) : Option (JStr × JStr) :=
  let sessionFile := m.sessionDir ++ ('/' :: ts) ++ ('_' :: uuid) ++ ".jsonl".toList
  if m.writeOk then some (uuid, sessionFile) else none


/-- The `try` body of `forkSessionFromParent`: prefer the branching primitive
when a leaf exists and it yields a truthy file and id, else synthesize; a
throw anywhere yields `none` (caught by the caller's `catch`). -/
def forkTryBody (m : ForkManagerM) (uuid ts : JStr) : Option (JStr × JStr) :=
  match m.leafId with
  | none => forkSynth m uuid ts
  | some _ =>
    match m.branchResult with
    | none => none
    | some br =>
      match br <|> m.sessionFile, m.sessionId with
      | some sf, some sid =>
        if !sf.isEmpty && !sid.isEmpty then some (sid, sf)
        else forkSynth m uuid ts
      | _, _ => forkSynth m uuid ts


/-- `forkSessionFromParent`: `null` when the parent transcript path is falsy
or missing, when `SessionManager.open` throws (`openResult = none`), or when
any later step throws. -/
def forkSessionFromParent (parentFile : Option JStr) (fileExists : Bool)
    (openResult : Option ForkManagerM) (uuid ts : JStr) : Option (JStr × JStr) :=
  if !jsOptStrTruthy parentFile || !fileExists then none
  else
    match openResult with
    | none => none
    | some m => forkTryBody m uuid ts


/-- Inputs of one `initSessionState` resolution call; function-typed fields
are the external collaborators, the rest mirrors the message context and
configuration the source reads. -/
structure InitInput where
  bodyForCommands : Option JStr
  commandBody : Option JStr
  rawBody : Option JStr
  body : Option JStr
  stripStructuralPrefixes : JStr → JStr
  stripMentions : JStr → JStr
  normalizedChatType : Option JStr
  hasGroupResolution : Bool
  resetAuthorized : Bool
  cfgResetTriggers : Option (List JStr)
  defaultResetTriggers : List JStr
  cfgIdleMinutes : Option ℚ
  defaultIdleMinutes : ℚ
  sessionKey : JStr
  store : JStr → Option SessionEntryS
  now : ℚ
  newUuid : JStr
  parentSessionKey : Option JStr
  resolveSessionFilePath : SessionEntryS → Option JStr
  parentFileExists : Bool
  openResult : Option ForkManagerM
  forkUuid : JStr
  forkFileTimestamp : JStr
  resolveTranscriptPath : JStr → JStr


/-- `ctx.BodyForCommands ?? ctx.CommandBody ?? ctx.RawBody ?? ctx.Body ?? ""`. -/
def commandSourceOf (p : InitInput) : JStr :=
  (p.bodyForCommands <|> p.commandBody <|> p.rawBody <|> p.body).getD []


/-- `stripStructuralPrefixes(commandSource).trim().toLowerCase()`. -/
def triggerBodyNormalizedOf (p : InitInput) : JStr :=
  lower (jsTrim (p.stripStructuralPrefixes (commandSourceOf p)))


/-- `rawBody.trim()` used for reset-trigger matching. -/
def trimmedBodyOf (p : InitInput) : JStr := jsTrim (commandSourceOf p)


/-- `normalizedChatType != null && normalizedChatType !== "direct" ? true :
Boolean(groupResolution)`. -/
def isGroupOf (p : InitInput) : Bool :=
  match p.normalizedChatType with
  | some t => if t ≠ "direct".toList then true else p.hasGroupResolution
  | none => p.hasGroupResolution


/-- Group chats match triggers against the mention-stripped normalized body. -/
def strippedForResetOf (p : InitInput) : JStr :=
  if isGroupOf p then p.stripMentions (triggerBodyNormalizedOf p)
  else triggerBodyNormalizedOf p


/-- `sessionCfg?.resetTriggers?.length ? sessionCfg.resetTriggers :
DEFAULT_RESET_TRIGGERS`. -/
def resetTriggersOf (p : InitInput) : List JStr :=
  match p.cfgResetTriggers with
  | some l => if l.isEmpty then p.defaultResetTriggers else l
  | none => p.defaultResetTriggers


/-- The reset-trigger loop: skip empty triggers, break without reset when the
sender is unauthorized, reset on an exact match (stripped body becomes empty)
or a `trigger + space` prefix match (stripped body becomes the remainder). -/
def findReset (authorized : Bool) (trimmedBody stripped : JStr) :
    List JStr → Option JStr
  | [] => none
  | t :: rest =>
    if t.isEmpty then findReset authorized trimmedBody stripped rest
    else if !authorized then none
    else if trimmedBody = t ∨ stripped = t then some []
    else if startsWith (t ++ [' ']) trimmedBody || startsWith (t ++ [' ']) stripped then
      some (trimStart (stripped.drop t.length))
    else findReset authorized trimmedBody stripped rest


/-- Outcome of the reset loop: `some strippedBody` when a reset fired. -/
def resetOutcomeOf (p : InitInput) : Option JStr :=
  findReset p.resetAuthorized (trimmedBodyOf p) (strippedForResetOf p)
    (resetTriggersOf p)


/-- `Math.max(sessionCfg?.idleMinutes ?? DEFAULT_IDLE_MINUTES, 1)`. -/
def idleMinutesOf (p : InitInput) : ℚ :=
  max (p.cfgIdleMinutes.getD p.defaultIdleMinutes) 1


/-- `idleMinutes * 60_000`. -/
def idleMsOf (p : InitInput) : ℚ := idleMinutesOf p * 60000


/-- The store entry at the resolved session key. -/
def entryOf (p : InitInput) : Option SessionEntryS := p.store p.sessionKey


/-- `entry && Date.now() - entry.updatedAt <= idleMs`: the fresh entry, when
one exists. -/
def freshEntryValOf (p : InitInput) : Option SessionEntryS :=
  match entryOf p with
  | some e => if p.now - e.updatedAt ≤ idleMsOf p then some e else none
  | none => none


/-- Final `isNewSession`: a reset fired, or no fresh entry was reusable. -/
def isNewSessionOf (p : InitInput) : Bool :=
  (resetOutcomeOf p).isSome || (freshEntryValOf p).isNone


/-- The entry reused on fresh-reuse (`baseEntry` in the source). -/
def baseEntryOf (p : InitInput) : Option SessionEntryS :=
  if (resetOutcomeOf p).isSome then none else freshEntryValOf p


/-- The session id before any fork: the stored one on fresh-reuse, else a
fresh `crypto.randomUUID()`. -/
def sessionId0Of (p : InitInput) : JStr :=
  match baseEntryOf p with
  | some e => e.sessionId
  | none => p.newUuid


/-- The fork attempted for a new session with a distinct, stored parent key
(`isNewSession && parentSessionKey && parentSessionKey !== sessionKey &&
sessionStore[parentSessionKey]`). -/
def forkedOf (p : InitInput) : Option (JStr × JStr) :=
  match p.parentSessionKey.map jsTrim with
  | none => none
  | some pk =>
    if isNewSessionOf p = true ∧ pk ≠ [] ∧ pk ≠ p.sessionKey then
      match p.store pk with
      | some parentEntry =>
        forkSessionFromParent (p.resolveSessionFilePath parentEntry)
          p.parentFileExists p.openResult p.forkUuid p.forkFileTimestamp
      | none => none
    else none


/-- The result fields of `initSessionState` the claims concern. -/
structure InitResult where
  sessionId : JStr
  isNewSession : Bool
  resetTriggered : Bool
  bodyStripped : Option JStr
  systemSent : Bool
  abortedLastRun : Bool
  sessionEntry : SessionEntryS
  previousSessionEntry : Option SessionEntryS
  sessionKey : JStr
deriving DecidableEq


/-- `initSessionState`: the reset / fresh-reuse / idle-expiry / fork state
machine, assembled from the pieces above exactly as the source orders them
(reset loop, freshness check, id selection, entry construction, optional
fork override, transcript-path fallback, compaction reset on new sessions). -/
def initSessionState (p : InitInput) : InitResult :=
  let resetRes := resetOutcomeOf p
  let base := baseEntryOf p
  let isNew := isNewSessionOf p
  let sessionId0 := sessionId0Of p
  let systemSent :=
    match base with
    | some e => e.systemSent.getD false
    | none => false
  let abortedLastRun :=
    match base with
    | some e => e.abortedLastRun.getD false
    | none => false
  let entry0 : SessionEntryS :=
    { sessionId := sessionId0
      updatedAt := p.now
      systemSent := some systemSent
      abortedLastRun := some abortedLastRun
      thinkingLevel := base.bind (·.thinkingLevel)
      verboseLevel := base.bind (·.verboseLevel)
      reasoningLevel := base.bind (·.reasoningLevel)
      modelOverride := base.bind (·.modelOverride)
      providerOverride := base.bind (·.providerOverride)
      sessionFile := base.bind (·.sessionFile)
      compactionCount := base.bind (·.compactionCount) }
  let stage1 : JStr × SessionEntryS :=
    match forkedOf p with
    | some fk => (fk.1, { entry0 with sessionId := fk.1, sessionFile := some fk.2 })
    | none => (sessionId0, entry0)
  let entry2 :=
    if jsOptStrTruthy stage1.2.sessionFile then stage1.2
    else { stage1.2 with
      sessionFile := some (p.resolveTranscriptPath stage1.2.sessionId) }
  let entry3 :=
    if isNew then { entry2 with compactionCount := some 0 } else entry2
  { sessionId := stage1.1
    isNewSession := isNew
    resetTriggered := resetRes.isSome
    bodyStripped := resetRes
    systemSent := systemSent
    abortedLastRun := abortedLastRun
    sessionEntry := entry3
    previousSessionEntry := if resetRes.isSome then entryOf p else none
    sessionKey := p.sessionKey }


/-- Stored entry used by the lifecycle witnesses. -/
def wEntry : SessionEntryS :=
  { sessionId := "stored".toList, updatedAt := 1000, systemSent := none,
    abortedLastRun := none, thinkingLevel := none, verboseLevel := none,
    reasoningLevel := none, modelOverride := none, providerOverride := none,
    sessionFile := none, compactionCount := none }


/-- Concrete resolution-call input for the C2 witness: an authorized `/new`
message hitting a fresh stored entry. -/
def wInput : InitInput :=
  { bodyForCommands := none, commandBody := none, rawBody := some "/new".toList,
    body := none,
    stripStructuralPrefixes := fun s => s, stripMentions := fun s => s,
    normalizedChatType := none, hasGroupResolution := false,
    resetAuthorized := true,
    cfgResetTriggers := some ["/new".toList],
    defaultResetTriggers := ["/new".toList],
    cfgIdleMinutes := some 60, defaultIdleMinutes := 60,
    sessionKey := "agent:default:main".toList,
    store := fun k => if k = "agent:default:main".toList then some wEntry else none,
    now := 2000, newUuid := "fresh-uuid".toList,
    parentSessionKey := none,
    resolveSessionFilePath := fun _ => none, parentFileExists := false,
    openResult := none, forkUuid := "fork-uuid".toList,
    forkFileTimestamp := "ts".toList,
    resolveTranscriptPath := fun s => '/' :: s }


/-- Resolution-call input for the C3 witness: ordinary text, fresh entry. -/
def w3Input : InitInput := { wInput with rawBody := some "hello".toList }


/-- Resolution-call input for the C9 witness: `idleMinutes` configured to 0. -/
def w9Input : InitInput :=
  { w3Input with cfgIdleMinutes := some 0, now := 1500 }


/-- Resolution-call input for the C7 witness: no entry at the resolved key, a
parent key with a stored entry whose transcript path resolves to `null`. -/
def w7Input : InitInput :=
  { wInput with
    rawBody := some "hi".toList,
    sessionKey := "agent:default:dm".toList,
    parentSessionKey := some "agent:default:main".toList }


/-! ## Auto-migration gate (`autoMigrateLegacyState`, lines 435-488, and the
process-wide flag `autoMigrateChecked`, line 57).

One process lifetime is a sequence of calls threading the module-level
`autoMigrateChecked` flag; each call's environment, detection outcome and the
change/warning lists its migration routines would produce are inputs. -/

/-- The two override environment variables (`CLAWDBOT_AGENT_DIR`,
`PI_CODING_AGENT_DIR`). -/
structure AutoEnv where
  clawdbotAgentDir : Option JStr
  piCodingAgentDir : Option JStr
deriving DecidableEq


/-- `env.VAR?.trim()` truthiness: set to a non-blank value. -/
def envVarSet : Option JStr → Bool
  | some s => !(jsTrim s).isEmpty
  | none => false


/-- `env.CLAWDBOT_AGENT_DIR?.trim() || env.PI_CODING_AGENT_DIR?.trim()`. -/
def envOverride (e : AutoEnv) : Bool :=
  envVarSet e.clawdbotAgentDir || envVarSet e.piCodingAgentDir


/-- One call's inputs: environment, detection outcome, and the audit lists the
two migration routines would produce if executed. -/
structure AutoCall where
  env : AutoEnv
  hasLegacySessions : Bool
  hasLegacyAgentDir : Bool
  sessionChanges : List JStr
  sessionWarnings : List JStr
  agentChanges : List JStr
  agentWarnings : List JStr
deriving DecidableEq


/-- The result of `autoMigrateLegacyState`; `ran` records whether the
migration routines were executed during the call. -/
structure AutoResult where
  migrated : Bool
  skipped : Bool
  ran : Bool
  changes : List JStr
  warnings : List JStr
deriving DecidableEq


/-- The `{migrated: false, skipped: true, changes: [], warnings: []}` result. -/
def skippedResult : AutoResult :=
  { migrated := false, skipped := true, ran := false, changes := [], warnings := [] }


/-- One call of `autoMigrateLegacyState` (lines 447-488) against the current
flag; returns the result and the updated flag. -/
def autoMigrateStep (checked : Bool) (c : AutoCall) : AutoResult × Bool :=
  if checked then (skippedResult, true)
  else if envOverride c.env then (skippedResult, true)
  else if !c.hasLegacySessions && !c.hasLegacyAgentDir then
    ({ migrated := false, skipped := false, ran := false,
       changes := [], warnings := [] }, true)
  else
    let changes := c.sessionChanges ++ c.agentChanges
    let warnings := c.sessionWarnings ++ c.agentWarnings
    ({ migrated := !changes.isEmpty, skipped := false, ran := true,
       changes := changes, warnings := warnings }, true)


/-- A process lifetime: run the calls in order, threading the flag. -/
def autoMigrateRun : Bool → List AutoCall → List AutoResult
  | _, [] => []
  | checked, c :: rest =>
    let step := autoMigrateStep checked c
    step.1 :: autoMigrateRun step.2 rest


/-- Calls used by the C6 witness: one with legacy content, one with an
override variable set. -/
def c6RunCall : AutoCall :=
  { env := { clawdbotAgentDir := none, piCodingAgentDir := none },
    hasLegacySessions := true, hasLegacyAgentDir := false,
    sessionChanges := ["moved".toList], sessionWarnings := [],
    agentChanges := [], agentWarnings := [] }


/-- Second call of the C6 witness, with `CLAWDBOT_AGENT_DIR` set. -/
def c6EnvCall : AutoCall :=
  { env := { clawdbotAgentDir := some " /custom".toList, piCodingAgentDir := none },
    hasLegacySessions := true, hasLegacyAgentDir := true,
    sessionChanges := ["x".toList], sessionWarnings := [],
    agentChanges := [], agentWarnings := [] }

/-! ## Theorems -/


theorem startsWith_append_self (p x : JStr) : startsWith p (p ++ x) = true := by
  induction p with
  | nil => simp [startsWith]
  | cons c cs ih => simp [startsWith, ih]


theorem ne_nil_of_startsWith {c : Char} {p s : JStr}
    (h : startsWith (c :: p) s = true) : s ≠ [] := by
  cases s with
  | nil => simp [startsWith] at h
  | cons _ _ => simp


theorem trimStart_cons_of_not_ws {c : Char} (l : JStr) (h : jsWs c = false) :
    trimStart (c :: l) = c :: l := by
  simp [trimStart, h]


theorem trimStart_head_not_ws : ∀ (l : JStr) (c : Char) (t : JStr),
    trimStart l = c :: t → jsWs c = false
  | [], c, t, h => by simp [trimStart] at h
  | a :: l, c, t, h => by
    by_cases ha : jsWs a
    · rw [trimStart, if_pos ha] at h
      exact trimStart_head_not_ws l c t h
    · rw [trimStart, if_neg ha] at h
      cases h
      exact Bool.eq_false_iff.mpr ha


theorem trimEnd_eq_self_of {l : JStr} {c : Char} {t : JStr}
    (hrev : l.reverse = c :: t) (hc : jsWs c = false) : trimEnd l = l := by
  unfold trimEnd
  rw [hrev, trimStart_cons_of_not_ws _ hc, ← hrev, List.reverse_reverse]


theorem jsTrim_reverse_head {x : JStr} {c : Char} {t : JStr}
    (h : (jsTrim x).reverse = c :: t) : jsWs c = false := by
  unfold jsTrim trimEnd at h
  rw [List.reverse_reverse] at h
  exact trimStart_head_not_ws _ _ _ h


theorem jsTrim_drop_reverse_head {x : JStr} (n : Nat) {c : Char} {t : JStr}
    (h : ((jsTrim x).drop n).reverse = c :: t) : jsWs c = false := by
  have hsplit : jsTrim x = (jsTrim x).take n ++ (jsTrim x).drop n :=
    (List.take_append_drop n (jsTrim x)).symm
  have hrev : (jsTrim x).reverse = c :: (t ++ ((jsTrim x).take n).reverse) := by
    conv_lhs => rw [hsplit]
    rw [List.reverse_append, h]
    rfl
  exact jsTrim_reverse_head hrev


/-- A string built as `c₀ :: rest` with a non-whitespace head and a
non-whitespace final character is fixed by `jsTrim`. -/
theorem jsTrim_fixed_build {s : JStr} {c0 : Char} {rest : JStr}
    (h0 : s = c0 :: rest) (hc0 : jsWs c0 = false)
    {cl : Char} {tl : JStr} (hrev : s.reverse = cl :: tl) (hcl : jsWs cl = false) :
    jsTrim s = s := by
  unfold jsTrim
  rw [h0, trimStart_cons_of_not_ws _ hc0, ← h0]
  exact trimEnd_eq_self_of hrev hcl


theorem lastNotWs_const {s : JStr} {c0 : Char} (h : s.reverse.head? = some c0)
    (hc : jsWs c0 = false) : lastNotWs s := by
  intro c hc'
  rw [h] at hc'
  injection hc' with h2
  subst h2
  exact hc


theorem lastNotWs_jsTrim (x : JStr) : lastNotWs (jsTrim x) := by
  intro c h
  cases hrev : (jsTrim x).reverse with
  | nil => rw [hrev] at h; simp at h
  | cons c' t =>
    rw [hrev] at h
    simp at h
    subst h
    exact jsTrim_reverse_head hrev


theorem lastNotWs_drop_jsTrim (x : JStr) (n : Nat) : lastNotWs ((jsTrim x).drop n) := by
  intro c h
  cases hrev : ((jsTrim x).drop n).reverse with
  | nil => rw [hrev] at h; simp at h
  | cons c' t =>
    rw [hrev] at h
    simp at h
    subst h
    exact jsTrim_drop_reverse_head n hrev


theorem lastNotWs_append {T : JStr} (A : JStr) (hT : T ≠ []) (h : lastNotWs T) :
    lastNotWs (A ++ T) := by
  intro c hc
  cases hrev : T.reverse with
  | nil => exact absurd (List.reverse_eq_nil_iff.mp hrev) hT
  | cons c' t =>
    have : (A ++ T).reverse.head? = some c' := by
      rw [List.reverse_append, hrev]
      rfl
    rw [this] at hc
    injection hc with h2
    subst h2
    exact h c' (by rw [hrev]; rfl)


theorem lastNotWs_chain {T : JStr} (A : JStr) (h : lastNotWs T ∧ T ≠ []) :
    lastNotWs (A ++ T) ∧ (A ++ T) ≠ [] := by
  refine ⟨lastNotWs_append A h.2 h.1, ?_⟩
  simp [h.2]


theorem jsTrim_fixed_of_shape {s : JStr} {c0 : Char} {rest : JStr}
    (h0 : s = c0 :: rest) (hc0 : jsWs c0 = false) (hlast : lastNotWs s) :
    jsTrim s = s := by
  cases hrev : s.reverse with
  | nil =>
    rw [List.reverse_eq_nil_iff] at hrev
    rw [hrev] at h0
    cases h0
  | cons c t =>
    exact jsTrim_fixed_build h0 hc0 hrev (hlast c (by rw [hrev]; rfl))


theorem agent_cons (X : JStr) : "agent:".toList ++ X = 'a' :: ("gent:".toList ++ X) := rfl


/-- Every rewrite output `agent:<...>` whose tail is trim-fixed and nonempty is
itself trim-fixed and `agent:`-prefixed. -/
theorem rewrite_fixed {X : JStr} (h : lastNotWs X ∧ X ≠ []) :
    jsTrim ("agent:".toList ++ X) = "agent:".toList ++ X ∧
      startsWith "agent:".toList ("agent:".toList ++ X) = true :=
  ⟨jsTrim_fixed_of_shape (agent_cons X) (by decide)
      (lastNotWs_append "agent:".toList h.2 h.1),
    startsWith_append_self _ _⟩


/-- A trim-fixed `agent:`-prefixed key hits rule 1: the normalizer returns it
unchanged with no rewrite tag. -/
theorem normalizeTagged_agent_fixed (na : JStr → JStr) (aid : JStr) {s : JStr}
    (hfix : jsTrim s = s) (hpre : startsWith "agent:".toList s = true) :
    normalizeTagged na s aid = (s, none) := by
  have h1 : "agent:".toList = 'a' :: "gent:".toList := rfl
  have hne : s ≠ [] := ne_nil_of_startsWith (h1 ▸ hpre)
  have hemp : s.isEmpty = false := by simpa [List.isEmpty_iff] using hne
  have hpre' : startsWith ['a', 'g', 'e', 'n', 't', ':'] s = true := hpre
  simp only [normalizeTagged]
  rw [hfix]
  simp [hemp, hpre']


theorem normalize_second_pass (na : JStr → JStr) (aid : JStr) {s : JStr}
    (hfix : jsTrim s = s) (hpre : startsWith "agent:".toList s = true) :
    normalizeSessionKeyForAgent na s aid = s := by
  unfold normalizeSessionKeyForAgent
  rw [normalizeTagged_agent_fixed na aid hfix hpre]


/-- Outcome shape of the normalizer. -/
theorem normalizeTagged_shape (na : JStr → JStr) (k a : JStr) :
    NormShape k (normalizeTagged na k a) := by
  have hsubL : lastNotWs (":subagent:".toList) :=
    lastNotWs_const
      (show (":subagent:".toList).reverse.head? = some ':' from by decide)
      (by decide)
  unfold normalizeTagged
  dsimp only
  split
  next hemp => left; rfl
  next hemp =>
  have hne : jsTrim k ≠ [] := by
    intro hx
    rw [hx] at hemp
    exact hemp rfl
  split
  next hagent => left; rfl
  next hagent =>
  split
  next hsub =>
    right
    refine ⟨na a ++ (":subagent:".toList ++ (jsTrim k).drop 9), 2, ?_,
      by simp [List.append_assoc]⟩
    refine lastNotWs_chain (na a) ?_
    by_cases hrest : (jsTrim k).drop 9 = []
    · rw [hrest, List.append_nil]
      exact ⟨hsubL, by decide⟩
    · exact lastNotWs_chain ":subagent:".toList ⟨lastNotWs_drop_jsTrim k 9, hrest⟩
  next hsub =>
  split
  next hgroup =>
    split
    next hid => left; rfl
    next hid =>
      right
      refine ⟨na a ++ ([':'] ++
          ((if containsSub "@g.us".toList (lower (jsTrim ((jsTrim k).drop 6))) = true
              then "whatsapp".toList else "unknown".toList) ++
            (":group:".toList ++ jsTrim ((jsTrim k).drop 6)))), 3, ?_,
        by simp [List.append_assoc]⟩
      have hidne : jsTrim ((jsTrim k).drop 6) ≠ [] := by
        intro hx
        rw [hx] at hid
        exact hid rfl
      exact lastNotWs_chain (na a) (lastNotWs_chain [':']
        (lastNotWs_chain _ (lastNotWs_chain ":group:".toList
          ⟨lastNotWs_jsTrim _, hidne⟩)))
  next hgroup =>
  split
  next hbare =>
    right
    refine ⟨na a ++ (":whatsapp:group:".toList ++ jsTrim k), 4, ?_,
      by simp [List.append_assoc]⟩
    exact lastNotWs_chain (na a)
      (lastNotWs_chain ":whatsapp:group:".toList ⟨lastNotWs_jsTrim k, hne⟩)
  next hbare =>
  split
  next hwa =>
    right
    refine ⟨na a ++ (":whatsapp:group:".toList ++ cleanedOf (jsTrim k)), 5, ?_,
      by simp [List.append_assoc]⟩
    have hclean : (cleanedOf (jsTrim k)).isEmpty = false := by
      simp only [Bool.and_eq_true, Bool.not_eq_true'] at hwa
      exact hwa.1.2
    have hcleanne : cleanedOf (jsTrim k) ≠ [] := by
      intro hx
      rw [hx] at hclean
      exact absurd hclean (by decide)
    exact lastNotWs_chain (na a)
      (lastNotWs_chain ":whatsapp:group:".toList ⟨lastNotWs_jsTrim _, hcleanne⟩)
  next hwa =>
  split
  next hsurface =>
    right
    refine ⟨na a ++ ([':'] ++ jsTrim k), 6, ?_,
      by simp [List.append_assoc]⟩
    exact lastNotWs_chain (na a) (lastNotWs_chain [':'] ⟨lastNotWs_jsTrim k, hne⟩)
  next hsurface => left; rfl


/-- C4: for every key rewritten by one of the normalization rules 2-6 (tag
`some r`) and every agent id, `normalizeSessionKeyForAgent` is idempotent:
normalizing its own output returns the same value, for any external
`normalizeAgentId` function `na`. -/
theorem C4_normalize_idempotent_on_rewrites (na : JStr → JStr) (k a : JStr) (r : Nat)
    (h : (normalizeTagged na k a).2 = some r) :
    normalizeSessionKeyForAgent na (normalizeSessionKeyForAgent na k a) a
      = normalizeSessionKeyForAgent na k a := by
  have hshape := normalizeTagged_shape na k a
  unfold NormShape at hshape
  obtain hnone | ⟨X, r', hchain, heq⟩ := hshape
  · rw [hnone] at h
    simp at h
  · unfold normalizeSessionKeyForAgent
    rw [heq]
    exact normalize_second_pass na a (rewrite_fixed hchain).1 (rewrite_fixed hchain).2


/-- C4 witness: the subagent key `subagent:x` is rewritten (rule 2) and
normalization is idempotent on it. -/
theorem C4_witness :
    (normalizeTagged (fun s => s) "subagent:x".toList "default".toList).2 = some 2 ∧
    normalizeSessionKeyForAgent (fun s => s)
        (normalizeSessionKeyForAgent (fun s => s) "subagent:x".toList "default".toList)
        "default".toList
      = normalizeSessionKeyForAgent (fun s => s) "subagent:x".toList "default".toList :=
  ⟨by decide,
    C4_normalize_idempotent_on_rewrites (fun s => s) "subagent:x".toList
      "default".toList 2 (by decide)⟩


/-- C8 counterexample: the key `agent:x ` (trailing blank) is matched by no
rewrite rule (rule 1 applies after trimming), yet the normalizer returns the
trimmed key `agent:x`, not the input unchanged. -/
theorem C8_counterexample_trim_changes_key :
    (normalizeTagged (fun s => s) "agent:x ".toList "default".toList).2 = none ∧
    normalizeSessionKeyForAgent (fun s => s) "agent:x ".toList "default".toList
      = "agent:x".toList ∧
    normalizeSessionKeyForAgent (fun s => s) "agent:x ".toList "default".toList
      ≠ "agent:x ".toList := by decide


/-- C8 (amended): `normalizeSessionKeyForAgent` is total, and on every key
matched by no rewrite rule it returns the trimmed input; in particular it
returns the input unchanged whenever the input carries no surrounding
whitespace (e.g. a trimmed `agent:`-prefixed key). -/
theorem C8_amended_no_rule_returns_trimmed (na : JStr → JStr) (k a : JStr)
    (h : (normalizeTagged na k a).2 = none) :
    normalizeSessionKeyForAgent na k a = jsTrim k ∧
      (jsTrim k = k → normalizeSessionKeyForAgent na k a = k) := by
  have hshape := normalizeTagged_shape na k a
  unfold NormShape at hshape
  obtain hnone | ⟨X, r', hchain, heq⟩ := hshape
  · constructor
    · unfold normalizeSessionKeyForAgent
      rw [hnone]
    · intro ht
      unfold normalizeSessionKeyForAgent
      rw [hnone]
      exact ht
  · rw [heq] at h
    simp at h


/-- C8 witness: the plain direct key `bob` is matched by no rule and returned
unchanged. -/
theorem C8_witness :
    (normalizeTagged (fun s => s) "bob".toList "default".toList).2 = none ∧
    normalizeSessionKeyForAgent (fun s => s) "bob".toList "default".toList
      = jsTrim "bob".toList ∧
    normalizeSessionKeyForAgent (fun s => s) "bob".toList "default".toList
      = "bob".toList :=
  ⟨by decide,
    (C8_amended_no_rule_returns_trimmed (fun s => s) "bob".toList "default".toList
      (by decide)).1,
    (C8_amended_no_rule_returns_trimmed (fun s => s) "bob".toList "default".toList
      (by decide)).2 (by decide)⟩


/-! ### Lookup lemmas for the association-list store model. -/

theorem assocLookup_append {α : Type} (l₁ l₂ : List (JStr × α)) (k : JStr) :
    assocLookup (l₁ ++ l₂) k = (assocLookup l₁ k <|> assocLookup l₂ k) := by
  induction l₁ with
  | nil => simp [assocLookup]
  | cons kv rest ih =>
    obtain ⟨k', v⟩ := kv
    by_cases hk : k' = k
    · simp [assocLookup, hk]
    · simp [assocLookup, hk, ih]


theorem assocLookup_map_values {α β : Type} (a : List (JStr × α))
    (f : JStr → α → β) (k : JStr) :
    assocLookup (a.map (fun kv => (kv.1, f kv.1 kv.2))) k
      = (assocLookup a k).map (f k) := by
  induction a with
  | nil => simp [assocLookup]
  | cons kv rest ih =>
    obtain ⟨k', v⟩ := kv
    by_cases hk : k' = k
    · subst hk
      simp [assocLookup]
    · simp [assocLookup, hk, ih]


theorem assocLookup_filter_keyPred {α : Type} (b : List (JStr × α))
    (q : JStr → Bool) (k : JStr) :
    assocLookup (b.filter (fun kv => q kv.1)) k
      = if q k then assocLookup b k else none := by
  induction b with
  | nil => simp [assocLookup]
  | cons kv rest ih =>
    obtain ⟨k', v⟩ := kv
    by_cases hq : q k'
    · by_cases hk : k' = k
      · subst hk
        simp [assocLookup, hq]
      · simp [assocLookup, hq, hk, ih]
    · by_cases hk : k' = k
      · subst hk
        simp [assocLookup, List.filter, Bool.eq_false_iff.mpr hq, ih,
          Bool.eq_false_iff.mpr hq]
      · simp [assocLookup, List.filter, Bool.eq_false_iff.mpr hq, hk, ih]


/-- JS spread semantics at lookup level: `b` wins over `a` on key collision. -/
theorem lookup_spreadMerge {α : Type} (a b : List (JStr × α)) (k : JStr) :
    assocLookup (spreadMerge a b) k = (assocLookup b k <|> assocLookup a k) := by
  unfold spreadMerge
  rw [assocLookup_append, assocLookup_map_values a (fun k1 v => (assocLookup b k1).getD v),
    assocLookup_filter_keyPred b (fun k1 => (assocLookup a k1).isNone)]
  cases ha : assocLookup a k with
  | none => cases hb : assocLookup b k <;> simp [ha, hb]
  | some v => cases hb : assocLookup b k <;> simp [ha, hb]


/-- C1: the sessions merge never drops or replaces an entry already present in
the target store — for every key present in both the normalized-legacy and
target stores, the merged store (after main-key adoption) maps it to the
target store's entry. -/
theorem C1_merge_target_entries_win (na : JStr → JStr) (aid mainKey : JStr)
    (legacy target : StoreL) (k : JStr) (e : EL)
    (hleg : (assocLookup (normalizedLegacyOf na aid legacy) k).isSome = true)
    (ht : assocLookup target k = some e) :
    assocLookup (mergedWithMain na aid mainKey legacy target) k = some e := by
  have hm : assocLookup (mergedStoreOf na aid legacy target) k = some e := by
    unfold mergedStoreOf
    rw [lookup_spreadMerge, ht]
    rfl
  unfold mergedWithMain
  dsimp only
  split
  · split
    · split
      · rw [assocLookup_append, hm]
        rfl
      · exact hm
    · exact hm
  · exact hm


/-- C1 witness: key `userA` present in both stores keeps the target entry. -/
theorem C1_witness :
    (assocLookup (normalizedLegacyOf (fun s => s) "default".toList
        [("userA".toList, c1LegacyEntry)]) "userA".toList).isSome = true ∧
    assocLookup [("userA".toList, c1TargetEntry)] "userA".toList = some c1TargetEntry ∧
    assocLookup (mergedWithMain (fun s => s) "default".toList
        "agent:default:main".toList [("userA".toList, c1LegacyEntry)]
        [("userA".toList, c1TargetEntry)]) "userA".toList = some c1TargetEntry :=
  ⟨by decide, by decide,
    C1_merge_target_entries_win (fun s => s) "default".toList
      "agent:default:main".toList [("userA".toList, c1LegacyEntry)]
      [("userA".toList, c1TargetEntry)] "userA".toList c1TargetEntry
      (by decide) (by decide)⟩


/-! ### `pickLatestLegacyDirectEntry` invariants (for C5). -/

theorem jsGt_irrefl (u : JsNum) : jsGt u u = false := by
  cases u <;> simp [jsGt]


/-- If `u` does not exceed the old bound and the new bound exceeds the old
one, `u` does not exceed the new bound (JS `>` semantics, `NaN` included). -/
theorem jsGt_chain {u b bn : JsNum} (h1 : jsGt u b = false) (h2 : jsGt bn b = true) :
    jsGt u bn = false := by
  cases u <;> cases b <;> cases bn <;>
    simp [jsGt] at * <;> linarith


/-- Fold invariant of the pick loop: the final bound dominates every eligible
entry and anything the initial bound dominated, and the final best either is
the initial one or comes from an eligible pair of the list with the final
bound equal to its `updatedAt`. -/
theorem pickAux_spec (l : StoreL) : ∀ (best : Option EL) (bu : JsNum),
    ((pickAux l (best, bu)).1 = best ∧ (pickAux l (best, bu)).2 = bu ∨
      ∃ k e, (k, e) ∈ l ∧ legacyDirectEligible k = true ∧
        (pickAux l (best, bu)).1 = some e ∧ (pickAux l (best, bu)).2 = updNum e) ∧
    (∀ k e, (k, e) ∈ l → legacyDirectEligible k = true →
      jsGt (updNum e) (pickAux l (best, bu)).2 = false) ∧
    (∀ u, jsGt u bu = false → jsGt u (pickAux l (best, bu)).2 = false) := by
  induction l with
  | nil =>
    intro best bu
    refine ⟨Or.inl ⟨rfl, rfl⟩, ?_, ?_⟩
    · intro k e hmem
      simp at hmem
    · intro u hu
      exact hu
  | cons kv rest ih =>
    intro best bu
    obtain ⟨k0, e0⟩ := kv
    by_cases helig : legacyDirectEligible k0 = true
    · by_cases hgt : jsGt (updNum e0) bu = true
      · have h := ih (some e0) (updNum e0)
        refine ⟨?_, ?_, ?_⟩
        · rcases h.1 with ⟨h1, h2⟩ | ⟨k, e, hmem, he, h1, h2⟩
          · exact Or.inr ⟨k0, e0, by simp, helig,
              by simpa [pickAux, helig, hgt] using h1,
              by simpa [pickAux, helig, hgt] using h2⟩
          · exact Or.inr ⟨k, e, by simp [hmem], he, by simpa [pickAux, helig, hgt] using h1,
              by simpa [pickAux, helig, hgt] using h2⟩
        · intro k e hmem he
          rcases List.mem_cons.mp hmem with heq | hmem2
          · cases heq
            have := h.2.2 (updNum e0) (jsGt_irrefl (updNum e0))
            simpa [pickAux, helig, hgt] using this
          · have := h.2.1 k e hmem2 he
            simpa [pickAux, helig, hgt] using this
        · intro u hu
          have hu2 : jsGt u (updNum e0) = false := jsGt_chain hu hgt
          have := h.2.2 u hu2
          simpa [pickAux, helig, hgt] using this
      · have hgt' : jsGt (updNum e0) bu = false := Bool.eq_false_iff.mpr hgt
        have h := ih best bu
        refine ⟨?_, ?_, ?_⟩
        · rcases h.1 with ⟨h1, h2⟩ | ⟨k, e, hmem, he, h1, h2⟩
          · exact Or.inl ⟨by simpa [pickAux, helig, hgt] using h1,
              by simpa [pickAux, helig, hgt] using h2⟩
          · exact Or.inr ⟨k, e, by simp [hmem], he, by simpa [pickAux, helig, hgt] using h1,
              by simpa [pickAux, helig, hgt] using h2⟩
        · intro k e hmem he
          rcases List.mem_cons.mp hmem with heq | hmem2
          · cases heq
            have := h.2.2 (updNum e0) hgt'
            simpa [pickAux, helig, hgt] using this
          · have := h.2.1 k e hmem2 he
            simpa [pickAux, helig, hgt] using this
        · intro u hu
          have := h.2.2 u hu
          simpa [pickAux, helig, hgt] using this
    · have helig' : legacyDirectEligible k0 = false := Bool.eq_false_iff.mpr helig
      have h := ih best bu
      refine ⟨?_, ?_, ?_⟩
      · rcases h.1 with ⟨h1, h2⟩ | ⟨k, e, hmem, he, h1, h2⟩
        · exact Or.inl ⟨by simpa [pickAux, helig'] using h1,
            by simpa [pickAux, helig'] using h2⟩
        · exact Or.inr ⟨k, e, by simp [hmem], he, by simpa [pickAux, helig'] using h1,
            by simpa [pickAux, helig'] using h2⟩
      · intro k e hmem he
        rcases List.mem_cons.mp hmem with heq | hmem2
        · cases heq
          rw [he] at helig'
          cases helig'
        · have := h.2.1 k e hmem2 he
          simpa [pickAux, helig'] using this
      · intro u hu
        have := h.2.2 u hu
        simpa [pickAux, helig'] using this


/-- C5 counterexample: with legacy entries `global` (updatedAt 100) and
`alice` (updatedAt 50), an empty target store and no main entry after merge,
the key `global` is not a legacy/surface group key and carries no
`agent:`/`subagent:` prefix — so by the claim its entry (the one with the
greatest `updatedAt` and a sessionId) should become the main entry — yet the
migration adopts the `alice` entry, because the scan additionally skips the
literal key `global`. -/
theorem C5_counterexample_global_key :
    (assocLookup (mergedStoreOf (fun s => s) "default".toList c5Legacy [])
        "agent:default:main".toList).isNone = true ∧
    startsWith "agent:".toList "global".toList = false ∧
    startsWith "subagent:".toList (lower "global".toList) = false ∧
    isLegacyGroupKey "global".toList = false ∧
    isSurfaceGroupKey "global".toList = false ∧
    jsTruthy c5GlobalEntry.sessionId = true ∧
    jsGt (updNum c5GlobalEntry) (updNum c5AliceEntry) = true ∧
    assocLookup (mergedWithMain (fun s => s) "default".toList
        "agent:default:main".toList c5Legacy [])
      "agent:default:main".toList = some c5AliceEntry ∧
    c5AliceEntry ≠ c5GlobalEntry := by decide


/-- C5 (amended): when no entry exists under the canonical main key after the
merge and the legacy scan yields an entry with a truthy `sessionId`, the
migration adopts that entry as the main entry; it comes from an eligible
legacy key — one that is non-blank, not the literal `global`, not
`agent:`/`subagent:`-prefixed and not a legacy or surface group key — and no
eligible legacy entry has a strictly greater `updatedAt` (JS `>` comparison,
non-numbers counting as 0). -/
theorem C5_amended_pick_latest_adopted (na : JStr → JStr) (aid mainKey : JStr)
    (legacy target : StoreL) (e : EL)
    (hmain : (assocLookup (mergedStoreOf na aid legacy target) mainKey).isNone = true)
    (hpick : pickLatestLegacyDirectEntry legacy = some e)
    (hsid : jsTruthy e.sessionId = true) :
    assocLookup (mergedWithMain na aid mainKey legacy target) mainKey = some e ∧
    (∃ k, (k, e) ∈ legacy ∧ legacyDirectEligible k = true) ∧
    (∀ k e2, (k, e2) ∈ legacy → legacyDirectEligible k = true →
      jsGt (updNum e2) (updNum e) = false) := by
  have hspec := pickAux_spec legacy none (.fin (-1))
  have hpick2 : (pickAux legacy (none, JsNum.fin (-1))).1 = some e := hpick
  refine ⟨?_, ?_, ?_⟩
  · unfold mergedWithMain
    dsimp only
    rw [if_pos hmain, hpick]
    dsimp only
    rw [if_pos hsid, assocLookup_append, Option.isNone_iff_eq_none.mp hmain]
    simp [assocLookup]
  · rcases hspec.1 with ⟨h1, _⟩ | ⟨k, e2, hmem, helig, h1, h2⟩
    · rw [h1] at hpick2
      cases hpick2
    · rw [h1] at hpick2
      injection hpick2 with he2
      subst he2
      exact ⟨k, hmem, helig⟩
  · intro k2 e2 hmem2 helig2
    have hdom := hspec.2.1 k2 e2 hmem2 helig2
    rcases hspec.1 with ⟨h1, _⟩ | ⟨k, e3, hmem, helig, h1, h2⟩
    · rw [h1] at hpick2
      cases hpick2
    · rw [h1] at hpick2
      injection hpick2 with he3
      subst he3
      rw [h2] at hdom
      exact hdom


/-- C5 witness (for the amended claim): on the counterexample store the
adopted main entry is the `alice` entry. -/
theorem C5_witness :
    (assocLookup (mergedStoreOf (fun s => s) "default".toList c5Legacy [])
        "agent:default:main".toList).isNone = true ∧
    pickLatestLegacyDirectEntry c5Legacy = some c5AliceEntry ∧
    jsTruthy c5AliceEntry.sessionId = true ∧
    assocLookup (mergedWithMain (fun s => s) "default".toList
        "agent:default:main".toList c5Legacy [])
      "agent:default:main".toList = some c5AliceEntry :=
  ⟨by decide, by decide, by decide,
    (C5_amended_pick_latest_adopted (fun s => s) "default".toList
      "agent:default:main".toList c5Legacy [] c5AliceEntry
      (by decide) (by decide) (by decide)).1⟩


/-! ### Key-uniqueness lemmas for the store model (for C10). -/

theorem assocLookup_isSome_iff_mem {α : Type} (l : List (JStr × α)) (k : JStr) :
    (assocLookup l k).isSome = true ↔ k ∈ l.map Prod.fst := by
  induction l with
  | nil => simp [assocLookup]
  | cons kv rest ih =>
    obtain ⟨k', v⟩ := kv
    by_cases hk : k' = k
    · subst hk
      constructor
      · intro _
        exact List.mem_cons_self _ _
      · intro _
        simp only [assocLookup, if_pos rfl]
        rfl
    · constructor
      · intro hs
        simp only [assocLookup, if_neg hk] at hs
        exact List.mem_cons_of_mem _ (ih.mp hs)
      · intro hm
        simp only [assocLookup, if_neg hk]
        rcases List.mem_cons.mp hm with heq | hm2
        · exact absurd heq.symm hk
        · exact ih.mpr hm2


theorem assocLookup_eq_some_mem {α : Type} {l : List (JStr × α)} {k : JStr} {v : α}
    (h : assocLookup l k = some v) : (k, v) ∈ l := by
  induction l with
  | nil => simp [assocLookup] at h
  | cons kv rest ih =>
    obtain ⟨k', v'⟩ := kv
    by_cases hk : k' = k
    · subst hk
      rw [assocLookup, if_pos rfl] at h
      injection h with h2
      subst h2
      simp
    · rw [assocLookup, if_neg hk] at h
      simp [ih h]


theorem assocLookup_of_nodup_mem {α : Type} {l : List (JStr × α)} {k : JStr} {v : α}
    (hnd : (l.map Prod.fst).Nodup) (h : (k, v) ∈ l) : assocLookup l k = some v := by
  induction l with
  | nil => simp at h
  | cons kv rest ih =>
    obtain ⟨k', v'⟩ := kv
    simp only [List.map_cons, List.nodup_cons] at hnd
    rcases List.mem_cons.mp h with heq | hmem
    · cases heq
      rw [assocLookup, if_pos rfl]
    · have hk : k' ≠ k := by
        intro hx
        subst hx
        exact hnd.1 (List.mem_map.mpr ⟨(k', v), hmem, rfl⟩)
      rw [assocLookup, if_neg hk]
      exact ih hnd.2 hmem


theorem normLegacyAux_keys_nodup (na : JStr → JStr) (aid : JStr) :
    ∀ (legacy acc : StoreL), (acc.map Prod.fst).Nodup →
      ((normLegacyAux na aid acc legacy).map Prod.fst).Nodup := by
  intro legacy
  induction legacy with
  | nil =>
    intro acc h
    simpa [normLegacyAux] using h
  | cons kv rest ih =>
    intro acc h
    obtain ⟨k, e⟩ := kv
    by_cases h1 : (normalizeSessionKeyForAgent na k aid).isEmpty = true
    · simpa [normLegacyAux, h1] using ih acc h
    · by_cases h2 :
        (assocLookup acc (normalizeSessionKeyForAgent na k aid)).isSome = true
      · simpa [normLegacyAux, h1, h2] using ih acc h
      · have hnotmem : normalizeSessionKeyForAgent na k aid ∉ acc.map Prod.fst := by
          intro hx
          exact h2 ((assocLookup_isSome_iff_mem acc _).mpr hx)
        have hnd2 : ((acc ++ [(normalizeSessionKeyForAgent na k aid, e)]).map
            Prod.fst).Nodup := by
          simp only [List.map_append, List.map_cons, List.map_nil]
          refine List.Nodup.append h (List.nodup_singleton _) ?_
          intro x hx1 hx2
          rw [List.mem_singleton] at hx2
          subst hx2
          exact hnotmem hx1
        simpa [normLegacyAux, h1, h2] using ih _ hnd2


theorem spreadMerge_keys_nodup {α : Type} (a b : List (JStr × α))
    (ha : (a.map Prod.fst).Nodup) (hb : (b.map Prod.fst).Nodup) :
    ((spreadMerge a b).map Prod.fst).Nodup := by
  unfold spreadMerge
  rw [List.map_append]
  have h1 : ((a.map (fun kv => (kv.1, (assocLookup b kv.1).getD kv.2))).map
      Prod.fst) = a.map Prod.fst := by
    simp [List.map_map, Function.comp]
  have h2 : ((b.filter (fun kv => (assocLookup a kv.1).isNone)).map
      Prod.fst).Nodup :=
    ((List.filter_sublist _).map Prod.fst).nodup hb
  rw [h1]
  refine List.Nodup.append ha h2 ?_
  intro k hk1 hk2
  obtain ⟨kv, hkv, hfst⟩ := List.mem_map.mp hk2
  have hmemf := List.mem_filter.mp hkv
  have hnone : (assocLookup a kv.1).isNone = true := by simpa using hmemf.2
  rw [hfst] at hnone
  have : (assocLookup a k).isSome = true := (assocLookup_isSome_iff_mem a k).mpr hk1
  rw [Option.isNone_iff_eq_none.mp hnone] at this
  cases this


theorem mergedWithMain_keys_nodup (na : JStr → JStr) (aid mainKey : JStr)
    (legacy target : StoreL) (hT : (target.map Prod.fst).Nodup) :
    ((mergedWithMain na aid mainKey legacy target).map Prod.fst).Nodup := by
  have hmerged : ((mergedStoreOf na aid legacy target).map Prod.fst).Nodup :=
    spreadMerge_keys_nodup _ _
      (normLegacyAux_keys_nodup na aid legacy [] (by simp)) hT
  unfold mergedWithMain
  dsimp only
  split
  next hnone =>
    split
    next latest hl =>
      split
      next htr =>
        rw [List.map_append]
        refine List.Nodup.append hmerged (by simp) ?_
        intro k hk1 hk2
        simp only [List.map_cons, List.map_nil, List.mem_singleton] at hk2
        subst hk2
        have : (assocLookup (mergedStoreOf na aid legacy target) k).isSome = true :=
          (assocLookup_isSome_iff_mem _ k).mpr hk1
        rw [Option.isNone_iff_eq_none.mp hnone] at this
        cases this
      next htr => exact hmerged
    next hl => exact hmerged
  next hnone => exact hmerged


theorem writtenStore_keys_sublist (now : ℚ) :
    ∀ (l : StoreL),
      ((l.filterMap (fun kv => (normalizeSessionEntryM now kv.2).map
        (fun ne => (kv.1, ne)))).map Prod.fst).Sublist (l.map Prod.fst) := by
  intro l
  induction l with
  | nil => simp
  | cons kv rest ih =>
    obtain ⟨k, e⟩ := kv
    cases hn : normalizeSessionEntryM now e with
    | none =>
      simp only [List.filterMap_cons, hn, Option.map_none', List.map_cons]
      exact ih.cons k
    | some ne =>
      simp only [List.filterMap_cons, hn, Option.map_some', List.map_cons]
      exact ih.cons₂ k


theorem normalizeSessionEntryM_none_of_not_string (now : ℚ) (e : EL)
    (hnostr : ∀ s, e.sessionId ≠ JsVal.vstr s) :
    normalizeSessionEntryM now e = none := by
  unfold normalizeSessionEntryM
  cases hsid : e.sessionId with
  | vstr s => exact absurd hsid (hnostr s)
  | vnum n => rfl
  | vnull => rfl
  | vobj => rfl


theorem normalizeSessionEntryM_updatedAt (now : ℚ) (e : EL) (ne : NE)
    (hn : normalizeSessionEntryM now e = some ne)
    (hnofin : ∀ q, e.updatedAt ≠ JsVal.vnum (JsNum.fin q)) :
    ne.updatedAt = now := by
  unfold normalizeSessionEntryM at hn
  cases hsid : e.sessionId with
  | vstr s =>
    rw [hsid] at hn
    dsimp only at hn
    by_cases hs : s.isEmpty = true
    · rw [if_pos hs] at hn
      cases hn
    · rw [if_neg hs] at hn
      injection hn with hne
      subst hne
      cases hupd : e.updatedAt with
      | vnum n =>
        cases n with
        | fin q => exact absurd hupd (hnofin q)
        | nan => rfl
        | inf => rfl
        | ninf => rfl
      | vstr s2 => rfl
      | vnull => rfl
      | vobj => rfl
  | vnum n =>
    rw [hsid] at hn
    dsimp only at hn
    cases hn
  | vnull =>
    rw [hsid] at hn
    dsimp only at hn
    cases hn
  | vobj =>
    rw [hsid] at hn
    dsimp only at hn
    cases hn


/-- C10: when the merged sessions store is written during migration, every
merged entry whose `sessionId` field is not a string is omitted from the
written target store, and every written entry whose `updatedAt` is not a
finite number has it replaced with the current time. -/
theorem C10_written_store_filter (na : JStr → JStr) (aid mainKey : JStr) (now : ℚ)
    (legacy target : StoreL)
    (hT : (target.map Prod.fst).Nodup) (k : JStr) (e : EL)
    (hmem : (k, e) ∈ mergedWithMain na aid mainKey legacy target) :
    ((∀ s, e.sessionId ≠ JsVal.vstr s) →
      assocLookup (writtenStore na aid mainKey now legacy target) k = none) ∧
    (∀ ne, normalizeSessionEntryM now e = some ne →
      assocLookup (writtenStore na aid mainKey now legacy target) k = some ne ∧
      ((∀ q, e.updatedAt ≠ JsVal.vnum (JsNum.fin q)) → ne.updatedAt = now)) := by
  have hndM := mergedWithMain_keys_nodup na aid mainKey legacy target hT
  have hndW : ((writtenStore na aid mainKey now legacy target).map Prod.fst).Nodup :=
    (writtenStore_keys_sublist now _).nodup hndM
  constructor
  · intro hnostr
    have hnone := normalizeSessionEntryM_none_of_not_string now e hnostr
    cases hlook : assocLookup (writtenStore na aid mainKey now legacy target) k with
    | none => rfl
    | some ne =>
      have hmemW := assocLookup_eq_some_mem hlook
      unfold writtenStore at hmemW
      obtain ⟨kv, hkvmem, hkv⟩ := List.mem_filterMap.mp hmemW
      obtain ⟨k2, e2⟩ := kv
      cases hn2 : normalizeSessionEntryM now e2 with
      | none =>
        rw [hn2] at hkv
        cases hkv
      | some ne2 =>
        rw [hn2] at hkv
        simp only [Option.map_some'] at hkv
        injection hkv with hpair
        have hk2 : k2 = k := congrArg Prod.fst hpair
        subst hk2
        have h1 := assocLookup_of_nodup_mem hndM hmem
        have h2 := assocLookup_of_nodup_mem hndM hkvmem
        rw [h1] at h2
        injection h2 with he
        rw [← he] at hn2
        rw [hnone] at hn2
        cases hn2
  · intro ne hn
    refine ⟨?_, normalizeSessionEntryM_updatedAt now e ne hn⟩
    have hmemW : (k, ne) ∈ writtenStore na aid mainKey now legacy target := by
      unfold writtenStore
      refine List.mem_filterMap.mpr ⟨(k, e), hmem, ?_⟩
      rw [hn]
      rfl
    exact assocLookup_of_nodup_mem hndW hmemW


/-- C10 witness: the non-string-id entry is dropped from the written store and
the `NaN`-timestamp entry is written with `updatedAt` replaced by now. -/
theorem C10_witness :
    (("bad".toList, c10BadEntry) ∈ mergedWithMain (fun s => s) "default".toList
        "agent:default:main".toList []
        [("bad".toList, c10BadEntry), ("nan".toList, c10NanEntry)]) ∧
    (("nan".toList, c10NanEntry) ∈ mergedWithMain (fun s => s) "default".toList
        "agent:default:main".toList []
        [("bad".toList, c10BadEntry), ("nan".toList, c10NanEntry)]) ∧
    assocLookup (writtenStore (fun s => s) "default".toList
        "agent:default:main".toList 999 []
        [("bad".toList, c10BadEntry), ("nan".toList, c10NanEntry)])
      "bad".toList = none ∧
    assocLookup (writtenStore (fun s => s) "default".toList
        "agent:default:main".toList 999 []
        [("bad".toList, c10BadEntry), ("nan".toList, c10NanEntry)])
      "nan".toList
      = some { sessionId := "sid".toList, updatedAt := 999, payload := 1 } :=
  ⟨by decide, by decide,
    (C10_written_store_filter (fun s => s) "default".toList
        "agent:default:main".toList 999 []
        [("bad".toList, c10BadEntry), ("nan".toList, c10NanEntry)]
        (by decide) "bad".toList c10BadEntry (by decide)).1
      (by intro s h; simp [c10BadEntry] at h),
    ((C10_written_store_filter (fun s => s) "default".toList
        "agent:default:main".toList 999 []
        [("bad".toList, c10BadEntry), ("nan".toList, c10NanEntry)]
        (by decide) "nan".toList c10NanEntry (by decide)).2
      { sessionId := "sid".toList, updatedAt := 999, payload := 1 }
      (by decide)).1⟩


/-- An unauthorized sender never resets: the loop breaks at the first
nonempty trigger. -/
theorem findReset_unauthorized (tb sb : JStr) :
    ∀ l, findReset false tb sb l = none := by
  intro l
  induction l with
  | nil => rfl
  | cons t0 rest ih =>
    by_cases h0 : t0.isEmpty = true
    · simp only [findReset, if_pos h0]
      exact ih
    · simp only [findReset, if_neg h0]
      rfl


/-- An authorized sender whose message matches some nonempty configured
trigger (exactly, or as a `trigger + space` prefix, on either the trimmed or
the stripped body) always resets. -/
theorem findReset_fires (tb sb t : JStr) (htne : t ≠ [])
    (hmatch : tb = t ∨ sb = t ∨ startsWith (t ++ [' ']) tb = true ∨
      startsWith (t ++ [' ']) sb = true) :
    ∀ l, t ∈ l → (findReset true tb sb l).isSome = true := by
  intro l
  induction l with
  | nil =>
    intro h
    simp at h
  | cons t0 rest ih =>
    intro hmem
    by_cases h0 : t0.isEmpty = true
    · have hrest : t ∈ rest := by
        rcases List.mem_cons.mp hmem with heq | hm
        · subst heq
          exact absurd (List.isEmpty_iff.mp h0) htne
        · exact hm
      simp only [findReset, if_pos h0]
      exact ih hrest
    · simp only [findReset, if_neg h0, Bool.not_true]
      rw [if_neg (by decide : ¬((false : Bool) = true))]
      by_cases hexact : tb = t0 ∨ sb = t0
      · rw [if_pos hexact]
        rfl
      · rw [if_neg hexact]
        by_cases hpre : (startsWith (t0 ++ [' ']) tb || startsWith (t0 ++ [' ']) sb) = true
        · rw [if_pos hpre]
          rfl
        · rw [if_neg hpre]
          have hrest : t ∈ rest := by
            rcases List.mem_cons.mp hmem with heq | hm
            · subst heq
              rcases hmatch with h | h | h | h
              · exact absurd (Or.inl h) hexact
              · exact absurd (Or.inr h) hexact
              · exact absurd (by rw [h]; rfl : (startsWith (t ++ [' ']) tb ||
                  startsWith (t ++ [' ']) sb) = true) hpre
              · exact absurd (by rw [h, Bool.or_true]) hpre
            · exact hm
          exact ih hrest


/-- C2: an authorized reset-trigger message always yields a new session with a
freshly generated `sessionId`, even when a fresh entry exists for the key; the
identical message from an unauthorized sender triggers no reset and reuses the
stored `sessionId`. -/
theorem C2_reset_trigger_authorization (p : InitInput) (t : JStr) (e : SessionEntryS)
    (hauth : p.resetAuthorized = true)
    (hmem : t ∈ resetTriggersOf p) (htne : t ≠ [])
    (hmatch : trimmedBodyOf p = t ∨ strippedForResetOf p = t ∨
      startsWith (t ++ [' ']) (trimmedBodyOf p) = true ∨
      startsWith (t ++ [' ']) (strippedForResetOf p) = true)
    (hentry : p.store p.sessionKey = some e)
    (hfresh : p.now - e.updatedAt ≤ idleMsOf p)
    (hpar : p.parentSessionKey = none) :
    ((initSessionState p).isNewSession = true ∧
      (initSessionState p).resetTriggered = true ∧
      (initSessionState p).sessionId = p.newUuid) ∧
    ((initSessionState { p with resetAuthorized := false }).isNewSession = false ∧
      (initSessionState { p with resetAuthorized := false }).resetTriggered = false ∧
      (initSessionState { p with resetAuthorized := false }).sessionId
        = e.sessionId) := by
  have hreset : (resetOutcomeOf p).isSome = true := by
    unfold resetOutcomeOf
    rw [hauth]
    exact findReset_fires (trimmedBodyOf p) (strippedForResetOf p) t htne hmatch
      (resetTriggersOf p) hmem
  have hbase : baseEntryOf p = none := by
    unfold baseEntryOf
    rw [if_pos hreset]
  have hisnew : isNewSessionOf p = true := by
    unfold isNewSessionOf
    rw [hreset]
    rfl
  have hfork : forkedOf p = none := by
    unfold forkedOf
    rw [hpar]
    rfl
  have hq_reset : resetOutcomeOf { p with resetAuthorized := false } = none :=
    findReset_unauthorized _ _ _
  have hq_fresh : freshEntryValOf { p with resetAuthorized := false } = some e := by
    unfold freshEntryValOf entryOf
    dsimp only
    rw [hentry]
    dsimp only
    rw [show idleMsOf { p with resetAuthorized := false } = idleMsOf p from rfl]
    rw [if_pos hfresh]
  have hq_base : baseEntryOf { p with resetAuthorized := false } = some e := by
    unfold baseEntryOf
    rw [hq_reset]
    simpa using hq_fresh
  have hq_isnew : isNewSessionOf { p with resetAuthorized := false } = false := by
    unfold isNewSessionOf
    rw [hq_reset, hq_fresh]
    rfl
  have hq_fork : forkedOf { p with resetAuthorized := false } = none := by
    unfold forkedOf
    dsimp only
    rw [hpar]
    rfl
  refine ⟨⟨?_, ?_, ?_⟩, ?_, ?_, ?_⟩
  · simp [initSessionState, hisnew]
  · simp [initSessionState, hreset]
  · simp [initSessionState, hfork, sessionId0Of, hbase]
  · simp [initSessionState, hq_isnew]
  · simp [initSessionState, hq_reset]
  · simp [initSessionState, hq_fork, sessionId0Of, hq_base]


/-- Fresh-reuse: with no reset, a stored entry within the idle window and no
parent key, the stored `sessionId` is reused. -/
theorem reuse_of_fresh (p : InitInput) (e : SessionEntryS)
    (hentry : p.store p.sessionKey = some e)
    (hnoreset : resetOutcomeOf p = none)
    (hpar : p.parentSessionKey = none)
    (hwin : p.now - e.updatedAt ≤ idleMsOf p) :
    (initSessionState p).sessionId = e.sessionId ∧
      (initSessionState p).isNewSession = false := by
  have hfreshv : freshEntryValOf p = some e := by
    unfold freshEntryValOf entryOf
    rw [hentry]
    dsimp only
    rw [if_pos hwin]
  have hbase : baseEntryOf p = some e := by
    unfold baseEntryOf
    rw [hnoreset]
    simpa using hfreshv
  have hisnew : isNewSessionOf p = false := by
    unfold isNewSessionOf
    rw [hnoreset, hfreshv]
    rfl
  have hfork : forkedOf p = none := by
    unfold forkedOf
    rw [hpar]
    rfl
  constructor
  · simp [initSessionState, hfork, sessionId0Of, hbase]
  · simp [initSessionState, hisnew]


/-- Idle-expiry: with no reset, a stored entry outside the idle window and no
parent key, a freshly generated `sessionId` is used. -/
theorem new_of_expired (p : InitInput) (e : SessionEntryS)
    (hentry : p.store p.sessionKey = some e)
    (hnoreset : resetOutcomeOf p = none)
    (hpar : p.parentSessionKey = none)
    (hwin : ¬(p.now - e.updatedAt ≤ idleMsOf p)) :
    (initSessionState p).sessionId = p.newUuid ∧
      (initSessionState p).isNewSession = true := by
  have hfreshv : freshEntryValOf p = none := by
    unfold freshEntryValOf entryOf
    rw [hentry]
    dsimp only
    rw [if_neg hwin]
  have hbase : baseEntryOf p = none := by
    unfold baseEntryOf
    rw [hnoreset]
    simpa using hfreshv
  have hisnew : isNewSessionOf p = true := by
    unfold isNewSessionOf
    rw [hfreshv]
    simp
  have hfork : forkedOf p = none := by
    unfold forkedOf
    rw [hpar]
    rfl
  constructor
  · simp [initSessionState, hfork, sessionId0Of, hbase]
  · simp [initSessionState, hisnew]


/-- C3: for an existing entry at the resolved key with no reset triggered,
resolution within the idle window (`idleMinutes * 60000` ms) reuses the stored
`sessionId` with `isNewSession = false`; past the window it returns a newly
generated, different `sessionId` with `isNewSession = true`. -/
theorem C3_idle_window_reuse_or_new (p : InitInput) (e : SessionEntryS)
    (hentry : p.store p.sessionKey = some e)
    (hnoreset : resetOutcomeOf p = none)
    (hpar : p.parentSessionKey = none)
    (hne : p.newUuid ≠ e.sessionId) :
    (p.now - e.updatedAt ≤ idleMsOf p →
      (initSessionState p).sessionId = e.sessionId ∧
      (initSessionState p).isNewSession = false) ∧
    (¬(p.now - e.updatedAt ≤ idleMsOf p) →
      (initSessionState p).sessionId = p.newUuid ∧
      (initSessionState p).isNewSession = true ∧
      (initSessionState p).sessionId ≠ e.sessionId) := by
  constructor
  · intro hwin
    exact reuse_of_fresh p e hentry hnoreset hpar hwin
  · intro hwin
    obtain ⟨h1, h2⟩ := new_of_expired p e hentry hnoreset hpar hwin
    exact ⟨h1, h2, by rw [h1]; exact hne⟩


theorem wInput_idleMs : idleMsOf wInput = 3600000 := by
  unfold idleMsOf idleMinutesOf
  rw [show wInput.cfgIdleMinutes = some 60 from rfl]
  simp only [Option.getD_some]
  rw [max_eq_left (by norm_num : (1 : ℚ) ≤ 60)]
  norm_num


/-- C2 witness: `/new` from the authorized sender resets despite the fresh
entry; the identical text from an unauthorized sender reuses the stored id. -/
theorem C2_witness :
    (initSessionState wInput).isNewSession = true ∧
    (initSessionState wInput).sessionId = "fresh-uuid".toList ∧
    (initSessionState { wInput with resetAuthorized := false }).isNewSession
      = false ∧
    (initSessionState { wInput with resetAuthorized := false }).sessionId
      = "stored".toList :=
  have h := C2_reset_trigger_authorization wInput "/new".toList wEntry rfl
    (by decide) (by decide) (Or.inl (by decide)) (by decide)
    (by rw [wInput_idleMs]; norm_num [wInput, wEntry]) rfl
  ⟨h.1.1, h.1.2.2, h.2.1, h.2.2.2⟩


theorem w3Input_idleMs : idleMsOf w3Input = 3600000 := by
  unfold idleMsOf idleMinutesOf
  rw [show w3Input.cfgIdleMinutes = some 60 from rfl]
  simp only [Option.getD_some]
  rw [max_eq_left (by norm_num : (1 : ℚ) ≤ 60)]
  norm_num


theorem w3Input_window : w3Input.now - wEntry.updatedAt ≤ idleMsOf w3Input := by
  rw [w3Input_idleMs]
  norm_num [w3Input, wInput, wEntry]


/-- C3 witness: resolving within the idle window reuses the stored id. -/
theorem C3_witness :
    resetOutcomeOf w3Input = none ∧
    w3Input.now - wEntry.updatedAt ≤ idleMsOf w3Input ∧
    (initSessionState w3Input).sessionId = "stored".toList ∧
    (initSessionState w3Input).isNewSession = false :=
  have h := C3_idle_window_reuse_or_new w3Input wEntry (by decide) (by decide)
    rfl (by decide)
  ⟨by decide, w3Input_window, (h.1 w3Input_window).1, (h.1 w3Input_window).2⟩


/-- C9: the effective idle window is at least one minute — a configured
`idleMinutes` of zero or a negative value is clamped to 1 — so an entry
updated within the last 60000 ms is always reused when no reset triggered. -/
theorem C9_idle_clamp_at_least_one_minute (p : InitInput) (e : SessionEntryS)
    (hentry : p.store p.sessionKey = some e)
    (hnoreset : resetOutcomeOf p = none)
    (hpar : p.parentSessionKey = none)
    (hwin : p.now - e.updatedAt ≤ 60000) :
    1 ≤ idleMinutesOf p ∧
    (∀ v, p.cfgIdleMinutes = some v → v ≤ 0 → idleMinutesOf p = 1) ∧
    ((initSessionState p).sessionId = e.sessionId ∧
      (initSessionState p).isNewSession = false) := by
  have h1 : (1 : ℚ) ≤ idleMinutesOf p := le_max_right _ _
  have h60 : (60000 : ℚ) ≤ idleMsOf p := by
    unfold idleMsOf
    calc (60000 : ℚ) = 1 * 60000 := by ring
    _ ≤ idleMinutesOf p * 60000 :=
      mul_le_mul_of_nonneg_right h1 (by norm_num)
  refine ⟨h1, ?_, ?_⟩
  · intro v hv hv0
    unfold idleMinutesOf
    rw [hv]
    simp only [Option.getD_some]
    exact max_eq_right (by linarith)
  · exact reuse_of_fresh p e hentry hnoreset hpar (le_trans hwin h60)


/-- C9 witness: configured idle 0 is clamped to one minute and the entry
updated 500 ms ago is reused. -/
theorem C9_witness :
    1 ≤ idleMinutesOf w9Input ∧
    idleMinutesOf w9Input = 1 ∧
    (initSessionState w9Input).sessionId = "stored".toList ∧
    (initSessionState w9Input).isNewSession = false :=
  have h := C9_idle_clamp_at_least_one_minute w9Input wEntry (by decide)
    (by decide) rfl (by norm_num [w9Input, w3Input, wInput, wEntry])
  ⟨h.1, h.2.1 0 rfl le_rfl, h.2.2.1, h.2.2.2⟩


/-- C7: when a new-session resolution supplies a parent session key whose
stored entry's transcript file is missing — or any step of forking fails —
`forkSessionFromParent` returns `null`, and `initSessionState` still
completes, producing a usable new entry (fresh `sessionId`, transcript path
assigned): a fork failure is never fatal to the caller. -/
theorem C7_fork_failure_nonfatal (p : InitInput) (pk : JStr) (pe : SessionEntryS)
    (hnoentry : p.store p.sessionKey = none)
    (hpk : p.parentSessionKey.map jsTrim = some pk)
    (hpkne : pk ≠ []) (hpkneq : pk ≠ p.sessionKey)
    (hpe : p.store pk = some pe)
    (hfail : jsOptStrTruthy (p.resolveSessionFilePath pe) = false ∨
      p.parentFileExists = false ∨
      p.openResult = none ∨
      (∃ m, p.openResult = some m ∧
        forkTryBody m p.forkUuid p.forkFileTimestamp = none)) :
    forkSessionFromParent (p.resolveSessionFilePath pe) p.parentFileExists
      p.openResult p.forkUuid p.forkFileTimestamp = none ∧
    (initSessionState p).isNewSession = true ∧
    (initSessionState p).sessionId = p.newUuid ∧
    (initSessionState p).sessionEntry.sessionId = p.newUuid ∧
    (initSessionState p).sessionEntry.sessionFile
      = some (p.resolveTranscriptPath p.newUuid) := by
  have hforkfn : forkSessionFromParent (p.resolveSessionFilePath pe)
      p.parentFileExists p.openResult p.forkUuid p.forkFileTimestamp = none := by
    rcases hfail with h | h | h | ⟨m, hm, htb⟩
    · simp [forkSessionFromParent, h]
    · simp [forkSessionFromParent, h]
    · unfold forkSessionFromParent
      split
      · rfl
      · rw [h]
    · unfold forkSessionFromParent
      split
      · rfl
      · rw [hm]
        exact htb
  have hfreshv : freshEntryValOf p = none := by
    unfold freshEntryValOf entryOf
    rw [hnoentry]
  have hisnew : isNewSessionOf p = true := by
    unfold isNewSessionOf
    rw [hfreshv]
    simp
  have hbase : baseEntryOf p = none := by
    unfold baseEntryOf
    split
    · rfl
    · exact hfreshv
  have hfork : forkedOf p = none := by
    unfold forkedOf
    rw [hpk]
    dsimp only
    rw [if_pos ⟨hisnew, hpkne, hpkneq⟩, hpe]
    exact hforkfn
  refine ⟨hforkfn, ?_, ?_, ?_, ?_⟩
  · simp [initSessionState, hisnew]
  · simp [initSessionState, hfork, sessionId0Of, hbase]
  · simp [initSessionState, hfork, sessionId0Of, hbase, jsOptStrTruthy, hisnew]
  · simp [initSessionState, hfork, sessionId0Of, hbase, jsOptStrTruthy, hisnew]


/-- C7 witness: the fork fails (no transcript path) yet the resolution
completes with a fresh session id and an assigned transcript file. -/
theorem C7_witness :
    forkSessionFromParent (w7Input.resolveSessionFilePath wEntry)
      w7Input.parentFileExists w7Input.openResult w7Input.forkUuid
      w7Input.forkFileTimestamp = none ∧
    (initSessionState w7Input).isNewSession = true ∧
    (initSessionState w7Input).sessionId = "fresh-uuid".toList ∧
    (initSessionState w7Input).sessionEntry.sessionFile
      = some ('/' :: "fresh-uuid".toList) :=
  have h := C7_fork_failure_nonfatal w7Input "agent:default:main".toList wEntry
    (by decide) (by decide) (by decide) (by decide) (by decide)
    (Or.inl (by decide))
  ⟨h.1, h.2.1, h.2.2.1, h.2.2.2.2⟩


theorem autoMigrateStep_flag (checked : Bool) (c : AutoCall) :
    (autoMigrateStep checked c).2 = true := by
  unfold autoMigrateStep
  split
  · rfl
  · split
    · rfl
    · split
      · rfl
      · rfl


theorem autoMigrateRun_checked (l : List AutoCall) :
    autoMigrateRun true l = List.replicate l.length skippedResult := by
  induction l with
  | nil => rfl
  | cons c rest ih =>
    unfold autoMigrateRun
    rw [show autoMigrateStep true c = (skippedResult, true) from rfl]
    simp [ih, List.replicate]


/-- C6: across any sequence of calls in one process lifetime the migration
routines execute during at most one call; every call after the first returns
`skipped = true` with empty changes and warnings; and any call made while an
override environment variable is set to a non-blank value is skipped entirely
(`skipped = true`, nothing run, no changes). -/
theorem C6_auto_migrate_gate (calls : List AutoCall) :
    ((autoMigrateRun false calls).countP (·.ran) ≤ 1) ∧
    (∀ r ∈ (autoMigrateRun false calls).tail, r = skippedResult) ∧
    (∀ (checked : Bool) (c : AutoCall), envOverride c.env = true →
      (autoMigrateStep checked c).1.ran = false ∧
      (autoMigrateStep checked c).1.skipped = true ∧
      (autoMigrateStep checked c).1.changes = [] ∧
      (autoMigrateStep checked c).1.warnings = []) := by
  refine ⟨?_, ?_, ?_⟩
  · cases calls with
    | nil => simp [autoMigrateRun]
    | cons c rest =>
      simp only [autoMigrateRun]
      rw [autoMigrateStep_flag false c, autoMigrateRun_checked]
      have hrest : (List.replicate rest.length skippedResult).countP (·.ran) = 0 := by
        rw [List.countP_eq_zero]
        intro r hr
        rw [List.eq_of_mem_replicate hr]
        decide
      rw [List.countP_cons, hrest]
      split <;> simp
  · cases calls with
    | nil => simp [autoMigrateRun]
    | cons c rest =>
      simp only [autoMigrateRun]
      rw [autoMigrateStep_flag false c, autoMigrateRun_checked]
      intro r hr
      rw [List.tail_cons] at hr
      exact List.eq_of_mem_replicate hr
  · intro checked c hov
    cases checked with
    | true => exact ⟨rfl, rfl, rfl, rfl⟩
    | false =>
      refine ⟨?_, ?_, ?_, ?_⟩ <;>
        simp [autoMigrateStep, hov, skippedResult]


/-- C6 witness: a two-call lifetime runs migration at most once with the
second call skipped, and a call under the override variable is skipped with
nothing run. -/
theorem C6_witness :
    ((autoMigrateRun false [c6RunCall, c6EnvCall]).countP (·.ran) ≤ 1) ∧
    envOverride c6EnvCall.env = true ∧
    (autoMigrateStep false c6EnvCall).1.ran = false ∧
    (autoMigrateStep false c6EnvCall).1.skipped = true ∧
    (autoMigrateStep false c6EnvCall).1.changes = [] :=
  have h := C6_auto_migrate_gate [c6RunCall, c6EnvCall]
  have he := h.2.2 false c6EnvCall (by decide)
  ⟨h.1, by decide, he.1, he.2.1, he.2.2.1⟩
